import Mathlib

/-
Verification development for the SNMP polling engine of the NMSimple
repository (src/src/network/snmp_worker.py, class SNMPWorker).

The network is modelled by explicit response data: a bulk-walk consumes a
list of `BulkResp` values (one per issued GetBulk request), a GetNext-based
estimation consumes a list of `NextResp` values, and a scalar read is a
single `ScalarResp`.  Raw SNMP values are modelled by the three observable
coercions the Python code applies to them: `int(value)` (which may fail),
`str(value)`, and `value.asOctets()` (present only for octet strings).
Python dictionaries are modelled as insertion-ordered association lists:
assigning to an existing key updates it in place, assigning to a fresh key
appends, matching CPython dict semantics.
-/

abbrev Oid := String

/-- Observable coercions of a raw SNMP value: `asInt` models `int(value)`
(`none` when that raises), `asStr` models `str(value)`, and `octets`
models `value.asOctets()` when the value has an `asOctets` attribute. -/
structure RawVal where
  asInt : Option Int
  asStr : String
  octets : Option (List Nat)
deriving DecidableEq

/-- A converted value: the Python code returns either an int or a string. -/
inductive TypedVal where
  | int (n : Int)
  | str (s : String)
deriving DecidableEq

/-- One response to a GetBulk request: an error indication or error status
(both break the walk the same way), or a page of varbinds. -/
inductive BulkResp where
  | err
  | page (varBinds : List (Oid × RawVal))
deriving DecidableEq

/-- One response to a GetNext request during interface-count estimation:
an error indication/status, an empty varbind list (which makes
`varBinds[0]` raise IndexError), or a single varbind. -/
inductive NextResp where
  | err
  | empty
  | bind (nv : Oid × RawVal)
deriving DecidableEq

/-- Outcome of the scalar `get_cmd` for ifNumber: a transport exception,
an error indication/status, or a value. -/
inductive ScalarResp where
  | exn
  | errStat
  | ok (v : RawVal)
deriving DecidableEq

/-- OID_MAPPING table from the source. -/
def OID_MAPPING : List (String × String) := [
  ("ifDescr", "1.3.6.1.2.1.2.2.1.2"),
  ("ifOperStatus", "1.3.6.1.2.1.2.2.1.8"),
  ("ifAdminStatus", "1.3.6.1.2.1.2.2.1.7"),
  ("ifInOctets", "1.3.6.1.2.1.2.2.1.10"),
  ("ifOutOctets", "1.3.6.1.2.1.2.2.1.16"),
  ("ifSpeed", "1.3.6.1.2.1.2.2.1.5"),
  ("ifType", "1.3.6.1.2.1.2.2.1.3"),
  ("ifPhysAddress", "1.3.6.1.2.1.2.2.1.6"),
  ("sysUpTime", "1.3.6.1.2.1.1.3.0")]

def ifDescrOid : String := "1.3.6.1.2.1.2.2.1.2"

/-- The core per-interface OIDs fetched by `_bulk_fetch_interface_data`. -/
def coreOids : List String :=
  ["ifDescr", "ifOperStatus", "ifAdminStatus",
   "ifInOctets", "ifOutOctets", "ifSpeed", "ifType", "ifPhysAddress"]

/-- Python `p.startswith(s)`: string prefix test, computed structurally
over the character lists. -/
def strStartsWith (s p : String) : Bool :=
  p.data.isPrefixOf s.data

/-- Value of a non-empty all-digit string, as Python `int` computes it. -/
def digitsToNat (cs : List Char) : Nat :=
  cs.foldl (fun n c => n * 10 + (c.toNat - 48)) 0

/-- Python `int(s)` restricted to digit strings: `none` (ValueError) on an
empty or non-digit string. -/
def pyDigitInt (s : String) : Option Nat :=
  if !s.data.isEmpty && s.data.all Char.isDigit then some (digitsToNat s.data)
  else none

/-- Interface index extraction: `int(name_str.split('.')[-1])` — the
segment after the last dot (the whole string when there is no dot),
parsed as an integer; `none` when the parse raises. -/
def parseIdx (name : Oid) : Option Nat :=
  pyDigitInt ⟨(name.data.reverse.takeWhile (fun c => c ≠ '.')).reverse⟩

/-- Two-digit lowercase hex rendering of one octet, as Python `f'{b:02x}'`. -/
def toHex2 (b : Nat) : String :=
  let s := (Nat.toDigits 16 b).asString
  if s.length < 2 then "0" ++ s else s

def intStatusOids : List String := ["ifOperStatus", "ifAdminStatus", "ifType"]

def intCounterOids : List String := ["ifInOctets", "ifOutOctets", "ifSpeed"]

/-- Embedding of `SNMPWorker._convert_snmp_value`.  Status/type fields and
counter/speed fields coerce to int with 0 on failure (the former via the
outer exception handler, the latter via the inner one); `ifPhysAddress`
renders a 6-byte octet value as colon-joined lowercase hex; everything
else is `str(value)`. -/
def convertSnmpValue (oidName : String) (v : RawVal) : TypedVal :=
  if oidName ∈ intStatusOids then
    match v.asInt with
    | some n => .int n
    | none => .int 0
  else if oidName ∈ intCounterOids then
    match v.asInt with
    | some n => .int n
    | none => .int 0
  else if oidName = "ifPhysAddress" then
    match v.octets with
    | some bs =>
        if bs.length = 6 then .str (String.intercalate ":" (bs.map toHex2))
        else .str v.asStr
    | none => .str v.asStr
  else .str v.asStr

/-- Python dict assignment `m[k] = v` on an insertion-ordered assoc list:
update in place when the key exists, append otherwise. -/
def dictInsert {α β : Type} [BEq α] (m : List (α × β)) (k : α) (v : β) :
    List (α × β) :=
  if m.any (fun e => e.1 == k) then
    m.map (fun e => if e.1 == k then (k, v) else e)
  else m ++ [(k, v)]

/-- Processing of the varbinds of one GetBulk page in
`_bulk_fetch_single_oid` (the inner `for varBind in varBinds` loop):
stop at the first OID without the `oid_base` string prefix, skip varbinds
whose trailing segment does not parse as an index, store converted values
keyed by index, count rows, and record whether anything was collected.
Returns (accumulated data, row count, found_in_batch). -/
def processPage (oidName oidBase : String) :
    List (Oid × RawVal) → List (Nat × TypedVal) → Nat →
    List (Nat × TypedVal) × Nat × Bool
  | [], acc, found => (acc, found, false)
  | (n, rv) :: rest, acc, found =>
    if strStartsWith n oidBase then
      match parseIdx n with
      | some i =>
          let r := processPage oidName oidBase rest
            (dictInsert acc i (convertSnmpValue oidName rv)) (found + 1)
          (r.1, r.2.1, true)
      | none => processPage oidName oidBase rest acc found
    else (acc, found, false)

/-- The `while interfaces_found < max_interfaces` loop of
`_bulk_fetch_single_oid`: one response consumed per iteration; an error
indication/status or an empty page breaks; a page producing no new match
breaks after being processed.  (The cursor update is dropped: responses
are supplied as a stream, one per request.) -/
def walkLoop (oidName oidBase : String) (maxRows : Nat) :
    List BulkResp → List (Nat × TypedVal) → Nat → List (Nat × TypedVal)
  | [], acc, _ => acc
  | r :: rs, acc, found =>
    if found < maxRows then
      match r with
      | .err => acc
      | .page vbs =>
        if vbs.isEmpty then acc
        else
          let p := processPage oidName oidBase vbs acc found
          if p.2.2 then walkLoop oidName oidBase maxRows rs p.1 p.2.1
          else p.1
    else acc

/-- Embedding of `SNMPWorker._bulk_fetch_single_oid`. -/
def bulkFetchSingleOid (oidName oidBase : String) (maxRows : Nat)
    (resps : List BulkResp) : List (Nat × TypedVal) :=
  walkLoop oidName oidBase maxRows resps [] 0

/-- All varbinds delivered across a response stream, in order. -/
def allBinds : List BulkResp → List (Oid × RawVal)
  | [] => []
  | .err :: rs => allBinds rs
  | .page vbs :: rs => vbs ++ allBinds rs

/-- Merge step of `_bulk_fetch_interface_data`: store one field value
into the per-index field map (creating the inner dict when the index is
new). -/
def dictInsertField (m : List (Nat × List (String × TypedVal))) (i : Nat)
    (oidName : String) (v : TypedVal) :
    List (Nat × List (String × TypedVal)) :=
  if m.any (fun e => e.1 == i) then
    m.map (fun e => if e.1 == i then (i, dictInsert e.2 oidName v) else e)
  else m ++ [(i, [(oidName, v)])]

/-- Embedding of the result-merging loop of
`SNMPWorker._bulk_fetch_interface_data`: `results` pairs each core OID
name with its walk result (`none` for a walk that raised and was skipped);
per-index raw values are merged in list order. -/
def bulkFetchInterfaceData
    (results : List (String × Option (List (Nat × TypedVal)))) :
    List (Nat × List (String × TypedVal)) :=
  results.foldl (fun m r =>
    match r.2 with
    | none => m
    | some walkRes =>
        walkRes.foldl (fun m2 e => dictInsertField m2 e.1 r.1 e.2) m) []

/-- Assembled output record (the per-interface dictionary built at the
end of `_fetch_interface_data`). -/
structure InterfaceRecord where
  Index : Nat
  Description : TypedVal
  OpStatus : TypedVal
  AdminStatus : TypedVal
  VLAN : String
  InOctets : TypedVal
  OutOctets : TypedVal
  Speed : TypedVal
  Type' : TypedVal
  PhysAddress : TypedVal
  Power : String
deriving DecidableEq

/-- `data.get(key, default)`. -/
def getField (data : List (String × TypedVal)) (k : String) (d : TypedVal) :
    TypedVal :=
  (data.lookup k).getD d

/-- One assembled record, with the declared defaults for missing fields. -/
def mkInterfaceRecord (i : Nat) (data : List (String × TypedVal))
    (vlan power : List (Nat × String)) : InterfaceRecord :=
  { Index := i
    Description := getField data "ifDescr" (.str ("Interface-" ++ toString i))
    OpStatus := getField data "ifOperStatus" (.int 2)
    AdminStatus := getField data "ifAdminStatus" (.int 2)
    VLAN := (vlan.lookup i).getD "N/A"
    InOctets := getField data "ifInOctets" (.int 0)
    OutOctets := getField data "ifOutOctets" (.int 0)
    Speed := getField data "ifSpeed" (.int 0)
    Type' := getField data "ifType" (.int 1)
    PhysAddress := getField data "ifPhysAddress" (.str "")
    Power := (power.lookup i).getD "N/A" }

/-- Embedding of `SNMPWorker._fetch_interface_data`: probe failure or an
empty aggregation yields the empty list; otherwise one record is
assembled per aggregated index, in aggregation order. -/
def fetchInterfaceData (probeOk : Bool)
    (agg : List (Nat × List (String × TypedVal)))
    (vlan power : List (Nat × String)) : List InterfaceRecord :=
  if !probeOk then []
  else if agg.isEmpty then []
  else agg.map (fun e => mkInterfaceRecord e.1 e.2 vlan power)

/-- Signal emitted by `SNMPWorker.run`. -/
inductive RunOutcome where
  | success (records : List InterfaceRecord)
  | error (msg : String)
deriving DecidableEq

/-- Embedding of `SNMPWorker.run` (non-exception path): an empty result
list emits the error signal with the single fixed message, a non-empty
result emits success. -/
def runWorker (probeOk : Bool)
    (agg : List (Nat × List (String × TypedVal)))
    (vlan power : List (Nat × String)) : RunOutcome :=
  let result := fetchInterfaceData probeOk agg vlan power
  if result.isEmpty then .error "No interface data retrieved"
  else .success result

/-- The `for _ in range(32)` GetNext loop of
`_estimate_interface_count`: count in-prefix varbinds, break on an error
or the first out-of-prefix OID; an empty varbind list raises IndexError
(`none`), which the surrounding handler turns into the value 20. -/
def countLoop : Nat → List NextResp → Nat → Option Nat
  | 0, _, acc => some acc
  | _ + 1, [], acc => some acc
  | fuel + 1, r :: rs, acc =>
    match r with
    | .err => some acc
    | .empty => none
    | .bind nv =>
        if strStartsWith nv.1 ifDescrOid then countLoop fuel rs (acc + 1)
        else some acc

/-- Embedding of `SNMPWorker._estimate_interface_count`: `none` input
models a transport exception before the loop; a loop-level exception also
yields 20; otherwise `max(count, 10)`. -/
def estimateInterfaceCount (fb : Option (List NextResp)) : Int :=
  match fb with
  | none => 20
  | some rs =>
    match countLoop 32 rs 0 with
    | none => 20
    | some c => ((max c 10 : Nat) : Int)

/-- Embedding of `SNMPWorker._get_interface_count`: on a clean scalar
read, `min(count + 5, 64)`; on an SNMP error, fall back to estimation;
on an exception (including `int()` failing on the returned value), 20. -/
def getInterfaceCount (s : ScalarResp) (fb : Option (List NextResp)) : Int :=
  match s with
  | .exn => 20
  | .errStat => estimateInterfaceCount fb
  | .ok v =>
    match v.asInt with
    | some c => min (c + 5) 64
    | none => 20

/-- The N/A fill loop shared by `_get_vlan_data_bulk` and
`_get_power_data_bulk`: every requested index missing from the map is
assigned the sentinel. -/
def fillNA (m : List (Nat × String)) (indices : List Nat) :
    List (Nat × String) :=
  indices.foldl
    (fun acc i => if acc.any (fun e => e.1 == i) then acc
                  else acc ++ [(i, "N/A")]) m

/-- The Cisco-VLAN merge loop of `_get_vlan_data_bulk`: vendor entries
fill only indices not already present. -/
def mergeMissing (m c : List (Nat × String)) : List (Nat × String) :=
  c.foldl (fun acc e => if acc.any (fun x => x.1 == e.1) then acc
                        else acc ++ [e]) m

/-- The VLAN-name enhancement applied to one value: a bare digit string
whose id is in the name map is rewritten to `"<id> (<name>)"`. -/
def enhanceVlanValue (names : List (Nat × String)) (s : String) : String :=
  match pyDigitInt s with
  | some vlanId =>
    match names.lookup vlanId with
    | some nm => toString vlanId ++ " (" ++ nm ++ ")"
    | none => s
  | none => s

/-- Method 2 of `_get_vlan_data_bulk`: the Cisco table is consulted only
when PVID coverage is empty or below half the requested indices
(`len(vlan_data) < len(interface_indices) / 2` under true division), and
its entries never overwrite PVID entries. -/
def vlanStage2 (indices : List Nat) (p c : List (Nat × String)) :
    List (Nat × String) :=
  if p.isEmpty || 2 * p.length < indices.length then
    if c.isEmpty then p else mergeMissing p c
  else p

/-- Method 3 of `_get_vlan_data_bulk`: when any VLAN was resolved, every
value is passed through the name enhancement. -/
def vlanStage3 (names : List (Nat × String)) (m : List (Nat × String)) :
    List (Nat × String) :=
  if m.isEmpty then m
  else m.map (fun e => (e.1, enhanceVlanValue names e.2))

/-- Embedding of `SNMPWorker._get_vlan_data_bulk`.  `p`, `c` and `names`
are the results of `_fetch_pvid_data`, `_fetch_cisco_vlan_data` and
`_fetch_vlan_names` (each already restricted as in the source); the
reconciliation and the final N/A fill follow the source lines 390-425.
Totality of this function reflects the catch-all handler: the resolver
never raises. -/
def getVlanDataBulk (indices : List Nat) (p c names : List (Nat × String)) :
    List (Nat × String) :=
  fillNA (vlanStage3 names (vlanStage2 indices p c)) indices

/-- Round-half-even of a/b (b positive), the rounding used by `.1f`
formatting of an exact decimal quotient. -/
def roundHalfEvenDiv (a b : Nat) : Nat :=
  let q := a / b
  let r := a % b
  if 2 * r < b then q
  else if b < 2 * r then q + 1
  else if q % 2 = 0 then q else q + 1

/-- Rendering of `f"{v / 1000:.1f}"` for a non-negative milliwatt reading,
idealized to exact decimal arithmetic: the value in tenths of a watt,
rounded half-to-even, printed with one decimal digit. -/
def formatWatts (v : Nat) : String :=
  let t := roundHalfEvenDiv v 100
  toString (t / 10) ++ "." ++ toString (t % 10)

/-- The power rendering of `_get_power_data_bulk` lines 639-643: positive
readings as watts with one decimal place, zero or negative as `"0W"`. -/
def powerStringOfReading (r : Int) : String :=
  if 0 < r then formatWatts r.toNat ++ "W" else "0W"

/-- Varbind processing for one power-table page: out-of-prefix or
unparsable varbinds are skipped (`continue`, not `break`, here), indices
outside the requested set are skipped, and each reading is rendered. -/
def collectPowerPage (powerOid : String) (indices : List Nat)
    (vbs : List (Oid × RawVal)) (acc : List (Nat × String)) :
    List (Nat × String) :=
  vbs.foldl (fun m nv =>
    if !(strStartsWith nv.1 powerOid) then m
    else
      match parseIdx nv.1 with
      | none => m
      | some i =>
        if i ∈ indices then
          match nv.2.asInt with
          | none => m
          | some r => dictInsert m i (powerStringOfReading r)
        else m) acc

/-- The prefix iteration of `_get_power_data_bulk`: one GetBulk per power
OID, processed only on a clean non-empty response; the loop breaks once
any power data has been collected. -/
def powerLoop (indices : List Nat) :
    List (String × BulkResp) → List (Nat × String) → List (Nat × String)
  | [], acc => acc
  | (oid, r) :: rest, acc =>
    match r with
    | .err => powerLoop indices rest acc
    | .page vbs =>
      if vbs.isEmpty then powerLoop indices rest acc
      else
        let acc2 := collectPowerPage oid indices vbs acc
        if acc2.isEmpty then powerLoop indices rest acc2 else acc2

/-- Embedding of `SNMPWorker._get_power_data_bulk`: `resps` pairs each
power OID with its response; every requested index missing at the end is
filled with `"N/A"`. -/
def getPowerDataBulk (indices : List Nat)
    (resps : List (String × BulkResp)) : List (Nat × String) :=
  fillNA (powerLoop indices resps []) indices

/- Association-list helper lemmas. -/

theorem lookupAppendSome {β : Type} {m : List (Nat × β)} (l : List (Nat × β))
    {i : Nat} {v : β} (h : m.lookup i = some v) : (m ++ l).lookup i = some v := by
  induction m with
  | nil => simp [List.lookup] at h
  | cons e rest ih =>
    rcases e with ⟨k, w⟩
    rw [List.lookup_cons] at h
    rw [List.cons_append, List.lookup_cons]
    cases hk : (i == k) with
    | true => rw [hk] at h; simpa using h
    | false => rw [hk] at h; exact ih h

theorem lookupAppendNone {β : Type} {m : List (Nat × β)} (l : List (Nat × β))
    {i : Nat} (h : m.lookup i = none) : (m ++ l).lookup i = l.lookup i := by
  induction m with
  | nil => simp
  | cons e rest ih =>
    rcases e with ⟨k, w⟩
    rw [List.lookup_cons] at h
    rw [List.cons_append, List.lookup_cons]
    cases hk : (i == k) with
    | true => rw [hk] at h; simp at h
    | false => rw [hk] at h; exact ih h

theorem lookupNoneOfNotMem {β : Type} {m : List (Nat × β)} {i : Nat}
    (h : i ∉ m.map Prod.fst) : m.lookup i = none := by
  induction m with
  | nil => simp
  | cons e rest ih =>
    rcases e with ⟨k, w⟩
    simp only [List.map_cons, List.mem_cons] at h
    push_neg at h
    rw [List.lookup_cons]
    have : (i == k) = false := beq_eq_false_iff_ne.mpr h.1
    rw [this]
    exact ih h.2

theorem anyKeyEqLookupIsSome {β : Type} (m : List (Nat × β)) (i : Nat) :
    (m.any (fun e => e.1 == i)) = (m.lookup i).isSome := by
  induction m with
  | nil => simp [List.lookup]
  | cons e rest ih =>
    rcases e with ⟨k, w⟩
    rw [List.lookup_cons]
    by_cases hk : k = i
    · subst hk; simp
    · have h1 : (k == i) = false := beq_eq_false_iff_ne.mpr hk
      have h2 : (i == k) = false := beq_eq_false_iff_ne.mpr (Ne.symm hk)
      simp [h1, h2, ih]

theorem lookupMapValue {β γ : Type} (f : β → γ) (m : List (Nat × β)) (i : Nat) :
    ((m.map (fun e => (e.1, f e.2))).lookup i) = (m.lookup i).map f := by
  induction m with
  | nil => simp
  | cons e rest ih =>
    rcases e with ⟨k, w⟩
    simp only [List.map_cons]
    rw [List.lookup_cons, List.lookup_cons]
    cases hk : (i == k) with
    | true => rfl
    | false => exact ih

theorem memDictInsert {α β : Type} [BEq α] [LawfulBEq α]
    {m : List (α × β)} {k : α} {v : β} {x : α × β}
    (h : x ∈ dictInsert m k v) : x ∈ m ∨ x = (k, v) := by
  unfold dictInsert at h
  by_cases ha : m.any (fun e => e.1 == k)
  · rw [if_pos ha] at h
    rcases List.mem_map.mp h with ⟨e, he, hfe⟩
    by_cases hek : (e.1 == k) = true
    · rw [if_pos hek] at hfe; right; exact hfe.symm
    · rw [if_neg hek] at hfe; left; rw [← hfe]; exact he
  · rw [if_neg ha] at h
    rcases List.mem_append.mp h with h1 | h1
    · left; exact h1
    · right; simpa using h1

theorem dictInsertLength {α β : Type} [BEq α]
    (m : List (α × β)) (k : α) (v : β) :
    (dictInsert m k v).length ≤ m.length + 1 := by
  unfold dictInsert
  by_cases ha : m.any (fun e => e.1 == k)
  · rw [if_pos ha]; simp
  · rw [if_neg ha]; simp

theorem walkLoopConsEq (oidName oidBase : String) (maxRows : Nat)
    (r : BulkResp) (rs : List BulkResp) (acc : List (Nat × TypedVal))
    (found : Nat) :
    walkLoop oidName oidBase maxRows (r :: rs) acc found =
      if found < maxRows then
        match r with
        | .err => acc
        | .page vbs =>
          if vbs.isEmpty then acc
          else
            let p := processPage oidName oidBase vbs acc found
            if p.2.2 then walkLoop oidName oidBase maxRows rs p.1 p.2.1
            else p.1
      else acc := rfl

/- Walker traceability and size lemmas. -/

theorem processPageMem (oidName oidBase : String) :
    ∀ (vbs : List (Oid × RawVal)) (acc : List (Nat × TypedVal))
      (found : Nat) (x : Nat × TypedVal),
      x ∈ (processPage oidName oidBase vbs acc found).1 →
      x ∈ acc ∨ ∃ nv ∈ vbs, strStartsWith nv.1 oidBase = true ∧
        parseIdx nv.1 = some x.1 ∧ x.2 = convertSnmpValue oidName nv.2 := by
  intro vbs
  induction vbs with
  | nil => intro acc found x hx; left; simpa [processPage] using hx
  | cons nv rest ih =>
    intro acc found x hx
    rcases nv with ⟨n, rv⟩
    by_cases hp : strStartsWith n oidBase
    · rw [processPage, if_pos hp] at hx
      cases hi : parseIdx n with
      | some i =>
        rw [hi] at hx
        simp only [] at hx
        rcases ih _ _ _ hx with h1 | ⟨nv2, hnv2, h2⟩
        · rcases memDictInsert h1 with h3 | h3
          · left; exact h3
          · right
            refine ⟨(n, rv), List.mem_cons_self _ _, hp, ?_, ?_⟩
            · rw [hi, h3]
            · rw [h3]
        · right; exact ⟨nv2, List.mem_cons_of_mem _ hnv2, h2⟩
      | none =>
        rw [hi] at hx
        rcases ih _ _ _ hx with h1 | ⟨nv2, hnv2, h2⟩
        · left; exact h1
        · right; exact ⟨nv2, List.mem_cons_of_mem _ hnv2, h2⟩
    · rw [processPage, if_neg hp] at hx
      left; exact hx

theorem walkLoopMem (oidName oidBase : String) (maxRows : Nat) :
    ∀ (resps : List BulkResp) (acc : List (Nat × TypedVal)) (found : Nat)
      (x : Nat × TypedVal),
      x ∈ walkLoop oidName oidBase maxRows resps acc found →
      x ∈ acc ∨ ∃ nv ∈ allBinds resps, strStartsWith nv.1 oidBase = true ∧
        parseIdx nv.1 = some x.1 ∧ x.2 = convertSnmpValue oidName nv.2 := by
  intro resps
  induction resps with
  | nil => intro acc found x hx; left; simpa [walkLoop] using hx
  | cons r rs ih =>
    intro acc found x hx
    by_cases hf : found < maxRows
    · rw [walkLoopConsEq, if_pos hf] at hx
      cases r with
      | err => left; exact hx
      | page vbs =>
        dsimp only at hx
        by_cases he : vbs.isEmpty
        · rw [if_pos he] at hx; left; exact hx
        · rw [if_neg he] at hx
          by_cases hfl : (processPage oidName oidBase vbs acc found).2.2
          · rw [if_pos hfl] at hx
            rcases ih _ _ _ hx with h1 | ⟨nv2, hnv2, h2⟩
            · rcases processPageMem oidName oidBase _ _ _ _ h1 with h3 | ⟨nv2, hnv2, h2⟩
              · left; exact h3
              · right
                exact ⟨nv2, by simp [allBinds, hnv2], h2⟩
            · right
              exact ⟨nv2, by simp [allBinds, hnv2], h2⟩
          · rw [if_neg hfl] at hx
            rcases processPageMem oidName oidBase _ _ _ _ hx with h3 | ⟨nv2, hnv2, h2⟩
            · left; exact h3
            · right
              exact ⟨nv2, by simp [allBinds, hnv2], h2⟩
    · rw [walkLoopConsEq, if_neg hf] at hx
      left; exact hx

theorem processPageCount (oidName oidBase : String) :
    ∀ (vbs : List (Oid × RawVal)) (acc : List (Nat × TypedVal)) (found : Nat),
      (processPage oidName oidBase vbs acc found).1.length + found ≤
        acc.length + (processPage oidName oidBase vbs acc found).2.1 ∧
      (processPage oidName oidBase vbs acc found).2.1 ≤ found + vbs.length := by
  intro vbs
  induction vbs with
  | nil => intro acc found; simp [processPage]
  | cons nv rest ih =>
    intro acc found
    rcases nv with ⟨n, rv⟩
    by_cases hp : strStartsWith n oidBase
    · rw [processPage, if_pos hp]
      cases hi : parseIdx n with
      | some i =>
        simp only []
        have h1 := ih (dictInsert acc i (convertSnmpValue oidName rv)) (found + 1)
        have h2 := dictInsertLength acc i (convertSnmpValue oidName rv)
        constructor
        · omega
        · simp only [List.length_cons]; omega
      | none =>
        have h1 := ih acc found
        constructor
        · exact h1.1
        · simp only [List.length_cons]; omega
    · rw [processPage, if_neg hp]
      simp

theorem walkLoopLen (oidName oidBase : String) (maxRows : Nat) :
    ∀ (resps : List BulkResp) (acc : List (Nat × TypedVal)) (found : Nat),
      (∀ vbs, BulkResp.page vbs ∈ resps → vbs.length ≤ 10) →
      acc.length ≤ found → found ≤ maxRows + 9 →
      (walkLoop oidName oidBase maxRows resps acc found).length ≤ maxRows + 9 := by
  intro resps
  induction resps with
  | nil => intro acc found _ h1 h2; rw [walkLoop]; omega
  | cons r rs ih =>
    intro acc found hsz h1 h2
    by_cases hf : found < maxRows
    · rw [walkLoopConsEq, if_pos hf]
      cases r with
      | err => dsimp only; omega
      | page vbs =>
        dsimp only
        by_cases he : vbs.isEmpty
        · rw [if_pos he]; omega
        · rw [if_neg he]
          have hvbs : vbs.length ≤ 10 := hsz vbs (List.mem_cons_self _ _)
          have hc := processPageCount oidName oidBase vbs acc found
          have hlen : (processPage oidName oidBase vbs acc found).1.length ≤
              (processPage oidName oidBase vbs acc found).2.1 := by omega
          have hfound : (processPage oidName oidBase vbs acc found).2.1 ≤ maxRows + 9 := by
            omega
          by_cases hfl : (processPage oidName oidBase vbs acc found).2.2
          · rw [if_pos hfl]
            exact ih _ _ (fun v hv => hsz v (List.mem_cons_of_mem _ hv)) hlen hfound
          · rw [if_neg hfl]; omega
    · rw [walkLoopConsEq, if_neg hf]; omega

/- VLAN resolver lemmas. -/

theorem fillNALookupSome (idxs : List Nat) :
    ∀ (m : List (Nat × String)) (i : Nat) (v : String),
      m.lookup i = some v → (fillNA m idxs).lookup i = some v := by
  induction idxs with
  | nil => intro m i v h; simpa [fillNA] using h
  | cons j rest ih =>
    intro m i v h
    have hstep : fillNA m (j :: rest) =
        fillNA (if m.any (fun e => e.1 == j) then m else m ++ [(j, "N/A")]) rest := rfl
    rw [hstep]
    by_cases ha : m.any (fun e => e.1 == j)
    · rw [if_pos ha]; exact ih m i v h
    · rw [if_neg ha]
      exact ih _ i v (lookupAppendSome _ h)

theorem fillNALookupNA (idxs : List Nat) :
    ∀ (m : List (Nat × String)) (i : Nat),
      i ∈ idxs → m.lookup i = none →
      (fillNA m idxs).lookup i = some "N/A" := by
  induction idxs with
  | nil => intro m i h; simp at h
  | cons j rest ih =>
    intro m i hi h
    have hstep : fillNA m (j :: rest) =
        fillNA (if m.any (fun e => e.1 == j) then m else m ++ [(j, "N/A")]) rest := rfl
    rw [hstep]
    by_cases hij : i = j
    · subst hij
      have ha : (m.any (fun e => e.1 == i)) = false := by
        rw [anyKeyEqLookupIsSome, h]; rfl
      rw [if_neg (by simp [ha])]
      have : (m ++ [(i, "N/A")]).lookup i = some "N/A" := by
        rw [lookupAppendNone _ h, List.lookup_cons]
        simp
      exact fillNALookupSome rest _ i _ this
    · have hri : i ∈ rest := by
        rcases List.mem_cons.mp hi with h1 | h1
        · exact absurd h1 hij
        · exact h1
      by_cases ha : m.any (fun e => e.1 == j)
      · rw [if_pos ha]; exact ih m i hri h
      · rw [if_neg ha]
        refine ih _ i hri ?_
        rw [lookupAppendNone _ h, List.lookup_cons]
        have : (i == j) = false := beq_eq_false_iff_ne.mpr hij
        rw [this]
        rfl

theorem mergeMissingLookupSome (c : List (Nat × String)) :
    ∀ (m : List (Nat × String)) (i : Nat) (v : String),
      m.lookup i = some v → (mergeMissing m c).lookup i = some v := by
  induction c with
  | nil => intro m i v h; simpa [mergeMissing] using h
  | cons e rest ih =>
    intro m i v h
    have hstep : mergeMissing m (e :: rest) =
        mergeMissing (if m.any (fun x => x.1 == e.1) then m else m ++ [e]) rest := rfl
    rw [hstep]
    by_cases ha : m.any (fun x => x.1 == e.1)
    · rw [if_pos ha]; exact ih m i v h
    · rw [if_neg ha]
      exact ih _ i v (lookupAppendSome _ h)

theorem mergeMissingKeys (c : List (Nat × String)) :
    ∀ (m : List (Nat × String)) (i : Nat),
      i ∈ (mergeMissing m c).map Prod.fst →
      i ∈ m.map Prod.fst ∨ i ∈ c.map Prod.fst := by
  induction c with
  | nil => intro m i h; left; simpa [mergeMissing] using h
  | cons e rest ih =>
    intro m i h
    have hstep : mergeMissing m (e :: rest) =
        mergeMissing (if m.any (fun x => x.1 == e.1) then m else m ++ [e]) rest := rfl
    rw [hstep] at h
    by_cases ha : m.any (fun x => x.1 == e.1)
    · rw [if_pos ha] at h
      rcases ih m i h with h1 | h1
      · left; exact h1
      · right; simp [h1]
    · rw [if_neg ha] at h
      rcases ih _ i h with h1 | h1
      · simp only [List.map_append, List.mem_append] at h1
        rcases h1 with h2 | h2
        · left; exact h2
        · right; simp at h2; simp [h2]
      · right; simp [h1]

theorem vlanStage2Keys (indices : List Nat) (p c : List (Nat × String))
    (i : Nat) (h : i ∈ (vlanStage2 indices p c).map Prod.fst) :
    i ∈ p.map Prod.fst ∨ i ∈ c.map Prod.fst := by
  unfold vlanStage2 at h
  by_cases h1 : (p.isEmpty || decide (2 * p.length < indices.length)) = true
  · rw [if_pos h1] at h
    by_cases h2 : c.isEmpty
    · rw [if_pos h2] at h; left; exact h
    · rw [if_neg h2] at h; exact mergeMissingKeys c p i h
  · rw [if_neg h1] at h; left; exact h

theorem vlanStage2LookupSome (indices : List Nat) (p c : List (Nat × String))
    (i : Nat) (v : String) (h : p.lookup i = some v) :
    (vlanStage2 indices p c).lookup i = some v := by
  unfold vlanStage2
  by_cases h1 : (p.isEmpty || decide (2 * p.length < indices.length)) = true
  · rw [if_pos h1]
    by_cases h2 : c.isEmpty
    · rw [if_pos h2]; exact h
    · rw [if_neg h2]; exact mergeMissingLookupSome c p i v h
  · rw [if_neg h1]; exact h

theorem vlanStage3Lookup (names : List (Nat × String))
    (m : List (Nat × String)) (i : Nat) :
    (vlanStage3 names m).lookup i = (m.lookup i).map (enhanceVlanValue names) := by
  unfold vlanStage3
  by_cases h : m.isEmpty
  · rw [if_pos h]
    have : m = [] := List.isEmpty_iff.mp h
    subst this
    simp
  · rw [if_neg h]
    exact lookupMapValue (enhanceVlanValue names) m i

/- Count-loop bound. -/

theorem countLoopLe :
    ∀ (fuel : Nat) (rs : List NextResp) (acc c : Nat),
      countLoop fuel rs acc = some c → c ≤ acc + fuel := by
  intro fuel
  induction fuel with
  | zero =>
    intro rs acc c h
    simp [countLoop] at h
    omega
  | succ n ih =>
    intro rs acc c h
    cases rs with
    | nil =>
      simp [countLoop] at h
      omega
    | cons r rest =>
      cases r with
      | err => simp [countLoop] at h; omega
      | empty => simp [countLoop] at h
      | bind nv =>
        rw [countLoop] at h
        by_cases hp : strStartsWith nv.1 ifDescrOid
        · rw [if_pos hp] at h
          have := ih rest (acc + 1) c h
          omega
        · rw [if_neg hp] at h
          simp at h
          omega

/- Aggregation key-uniqueness lemmas. -/

theorem dictInsertFieldKeysNodup
    {m : List (Nat × List (String × TypedVal))} {i : Nat}
    {oidName : String} {v : TypedVal}
    (h : (m.map Prod.fst).Nodup) :
    ((dictInsertField m i oidName v).map Prod.fst).Nodup := by
  unfold dictInsertField
  by_cases ha : m.any (fun e => e.1 == i)
  · rw [if_pos ha]
    have : (m.map (fun e => if e.1 == i then (i, dictInsert e.2 oidName v) else e)).map
        Prod.fst = m.map Prod.fst := by
      rw [List.map_map]
      refine List.map_congr_left ?_
      intro e _
      by_cases hek : (e.1 == i) = true
      · simp only [Function.comp_apply, if_pos hek]
        exact (beq_iff_eq.mp hek).symm
      · simp only [Function.comp_apply, if_neg hek]
    rw [this]
    exact h
  · rw [if_neg ha]
    have hni : i ∉ m.map Prod.fst := by
      intro hmem
      rcases List.mem_map.mp hmem with ⟨e, he, hei⟩
      exact ha (List.any_eq_true.mpr ⟨e, he, by simp [hei]⟩)
    rw [List.map_append]
    rw [List.nodup_append]
    exact ⟨h, List.nodup_singleton _, by simpa using hni⟩

theorem foldlDictInsertFieldNodup (oidName : String)
    (walkRes : List (Nat × TypedVal)) :
    ∀ (m : List (Nat × List (String × TypedVal))),
      (m.map Prod.fst).Nodup →
      (((walkRes.foldl (fun m2 e => dictInsertField m2 e.1 oidName e.2) m)).map
        Prod.fst).Nodup := by
  induction walkRes with
  | nil => intro m h; exact h
  | cons e rest ih =>
    intro m h
    exact ih _ (dictInsertFieldKeysNodup h)

theorem bulkFetchInterfaceDataKeysNodup
    (results : List (String × Option (List (Nat × TypedVal)))) :
    ((bulkFetchInterfaceData results).map Prod.fst).Nodup := by
  have haux : ∀ (rs : List (String × Option (List (Nat × TypedVal))))
      (m : List (Nat × List (String × TypedVal))),
      (m.map Prod.fst).Nodup →
      ((rs.foldl (fun m r =>
        match r.2 with
        | none => m
        | some walkRes =>
            walkRes.foldl (fun m2 e => dictInsertField m2 e.1 r.1 e.2) m) m).map
        Prod.fst).Nodup := by
    intro rs
    induction rs with
    | nil => intro m h; exact h
    | cons r rest ih =>
      intro m h
      cases hr : r.2 with
      | none => simpa [hr] using ih m h
      | some walkRes =>
        simp only [List.foldl_cons, hr]
        exact ih _ (foldlDictInsertFieldNodup r.1 walkRes m h)
  exact haux results [] (by simp)

/- Claim theorems. -/

/-- C1 counterexample: with the probe succeeding and aggregation empty,
the worker emits the error "No interface data retrieved" (the same
message as on probe failure), not "no interfaces found" — the claimed
distinct error message is never produced. -/
theorem runWorkerEmptyAggregationMessage :
    runWorker true [] [] [] = RunOutcome.error "No interface data retrieved" ∧
    RunOutcome.error "No interface data retrieved" ≠
      RunOutcome.error "no interfaces found" :=
  ⟨rfl, by decide⟩

/-- C1 amended: when the connectivity probe fails and when aggregation
over the core FieldId set is empty, `run` emits the same single error
message "No interface data retrieved" ("No interfaces found" is only
logged); the two failure conditions are not distinguished by the emitted
error. -/
theorem runWorkerSingleFailureMessage :
    ∀ (agg : List (Nat × List (String × TypedVal)))
      (vlan power : List (Nat × String)),
      runWorker false agg vlan power =
        RunOutcome.error "No interface data retrieved" ∧
      runWorker true [] vlan power =
        RunOutcome.error "No interface data retrieved" := by
  intro agg vlan power
  exact ⟨rfl, rfl⟩

/-- C2: in a walk of one table whose delivered varbinds split into an
in-prefix region `a` followed by an out-of-prefix region `b` (the
lexicographic end of the table), every collected row originates from a
varbind of the in-prefix region: no row outside the `oidBase` prefix is
ever collected, and nothing at or after the first out-of-prefix object
identifier contributes, regardless of `maxRows`. -/
theorem bulkWalkStopsAtLexBoundary
    (oidName oidBase : String) (maxRows : Nat) (resps : List BulkResp)
    (a b : List (Oid × RawVal))
    (hsplit : allBinds resps = a ++ b)
    (_ha : ∀ nv ∈ a, strStartsWith nv.1 oidBase = true)
    (hb : ∀ nv ∈ b, strStartsWith nv.1 oidBase = false) :
    ∀ x ∈ bulkFetchSingleOid oidName oidBase maxRows resps,
      ∃ nv ∈ a, parseIdx nv.1 = some x.1 ∧
        x.2 = convertSnmpValue oidName nv.2 := by
  intro x hx
  rcases walkLoopMem oidName oidBase maxRows resps [] 0 x hx with
    h1 | ⟨nv, hnv, hpre, hparse, hconv⟩
  · simp at h1
  · rw [hsplit] at hnv
    rcases List.mem_append.mp hnv with h2 | h2
    · exact ⟨nv, h2, hparse, hconv⟩
    · rw [hb nv h2] at hpre
      exact absurd hpre (by simp)

/-- C2 witness: a concrete walk with maxRows 5 that meets the table end
after one collected row (rows remaining within the page); the collected
entry traces back to the single in-prefix varbind. -/
theorem bulkWalkStopsAtLexBoundaryWitness :
    ∃ nv ∈ [(("1.3.6.1.2.1.2.2.1.2.1" : String), RawVal.mk none "eth0" none)],
      parseIdx nv.1 = some 1 ∧
      TypedVal.str "eth0" = convertSnmpValue "ifDescr" nv.2 :=
  bulkWalkStopsAtLexBoundary "ifDescr" "1.3.6.1.2.1.2.2.1.2" 5
    [BulkResp.page [("1.3.6.1.2.1.2.2.1.2.1", RawVal.mk none "eth0" none),
                    ("1.3.6.1.2.1.2.2.1.3.1", RawVal.mk none "x" none)],
     BulkResp.page [("1.3.6.1.2.1.2.2.1.3.2", RawVal.mk none "y" none)]]
    [(("1.3.6.1.2.1.2.2.1.2.1" : String), RawVal.mk none "eth0" none)]
    [(("1.3.6.1.2.1.2.2.1.3.1" : String), RawVal.mk none "x" none),
     (("1.3.6.1.2.1.2.2.1.3.2" : String), RawVal.mk none "y" none)]
    rfl (by decide) (by decide)
    (1, TypedVal.str "eth0") (by decide)

/-- C3 counterexample: with maxRows 1, one page containing two in-prefix
rows yields a result with 2 entries, because the row-count bound is only
checked between pages. -/
theorem bulkWalkExceedsMaxRows :
    (bulkFetchSingleOid "ifDescr" "1.3.6.1.2.1.2.2.1.2" 1
      [BulkResp.page [("1.3.6.1.2.1.2.2.1.2.1", RawVal.mk none "a" none),
                      ("1.3.6.1.2.1.2.2.1.2.2", RawVal.mk none "b" none)]]).length
      = 2 ∧ ¬(2 ≤ 1) :=
  ⟨by decide, by decide⟩

/-- C3 amended: with pages of at most the requested 10 repetitions, a
table walk returns at most maxRows + 9 entries: the walk stops issuing
further requests once the collected row count reaches maxRows, but the
final page may overshoot the bound by up to 9 rows. -/
theorem bulkWalkBoundedOvershoot
    (oidName oidBase : String) (maxRows : Nat) (resps : List BulkResp)
    (hsz : ∀ vbs, BulkResp.page vbs ∈ resps → vbs.length ≤ 10) :
    (bulkFetchSingleOid oidName oidBase maxRows resps).length ≤ maxRows + 9 :=
  walkLoopLen oidName oidBase maxRows resps [] 0 hsz (by simp) (by omega)

/-- C3 witness: the bound applied to the concrete overshooting walk. -/
theorem bulkWalkBoundedOvershootWitness :
    (bulkFetchSingleOid "ifDescr" "1.3.6.1.2.1.2.2.1.2" 1
      [BulkResp.page [("1.3.6.1.2.1.2.2.1.2.1", RawVal.mk none "a" none),
                      ("1.3.6.1.2.1.2.2.1.2.2", RawVal.mk none "b" none)]]).length
      ≤ 1 + 9 :=
  bulkWalkBoundedOvershoot "ifDescr" "1.3.6.1.2.1.2.2.1.2" 1 _
    (by
      intro vbs hv
      simp only [List.mem_singleton] at hv
      injection hv with h
      subst h
      decide)

/-- C4 counterexample: when the interface-count scalar read fails with an
SNMP error and the fallback walk ends immediately with zero observed
entries, the estimate is max(0, 10) = 10, not the fixed default 20. -/
theorem estimateZeroWalkYieldsTen :
    getInterfaceCount ScalarResp.errStat (some [NextResp.err]) = 10 ∧
    (10 : Int) ≠ 20 :=
  ⟨rfl, by decide⟩

/-- C4 amended: when the scalar count read fails with an SNMP error and
the fallback walk completes with zero observed entries, the estimate is
max(0, 10) = 10; the fixed default 20 arises only when the scalar read or
the fallback walk raises an exception. -/
theorem estimateFallbackClassified :
    (∀ rs : List NextResp, countLoop 32 rs 0 = some 0 →
        getInterfaceCount ScalarResp.errStat (some rs) = 10) ∧
    (∀ rs : List NextResp, countLoop 32 rs 0 = none →
        getInterfaceCount ScalarResp.errStat (some rs) = 20) ∧
    getInterfaceCount ScalarResp.errStat none = 20 ∧
    (∀ fb : Option (List NextResp), getInterfaceCount ScalarResp.exn fb = 20) := by
  refine ⟨?_, ?_, rfl, fun fb => rfl⟩
  · intro rs h
    simp [getInterfaceCount, estimateInterfaceCount, h]
  · intro rs h
    simp [getInterfaceCount, estimateInterfaceCount, h]

/-- C4 amended witness: the classification applied to concrete fallback
streams (an immediate error: zero entries, estimate 10; an empty varbind
response: exception path, estimate 20). -/
theorem estimateFallbackClassifiedWitness :
    getInterfaceCount ScalarResp.errStat (some [NextResp.err]) = 10 ∧
    getInterfaceCount ScalarResp.errStat (some [NextResp.empty]) = 20 :=
  ⟨estimateFallbackClassified.1 [NextResp.err] (by decide),
   estimateFallbackClassified.2.1 [NextResp.empty] (by decide)⟩

theorem vlanStage3Keys (names : List (Nat × String)) (m : List (Nat × String)) :
    (vlanStage3 names m).map Prod.fst = m.map Prod.fst := by
  unfold vlanStage3
  by_cases h : m.isEmpty
  · rw [if_pos h]
  · rw [if_neg h, List.map_map]
    exact List.map_congr_left (fun e _ => rfl)

/-- C5 counterexample: a fetch in which the first field walk discovers
indices 1 and 3 and the second discovers index 2 returns its records in
first-discovery order 1, 3, 2, which is not ascending index order. -/
theorem fetchOrderNotAscending :
    ((fetchInterfaceData true (bulkFetchInterfaceData
        [("ifDescr", some [(1, TypedVal.str "a"), (3, TypedVal.str "b")]),
         ("ifOperStatus", some [(2, TypedVal.int 1)])]) [] []).map
      InterfaceRecord.Index = [1, 3, 2]) ∧
    ¬ List.Sorted (· < ·) [1, 3, 2] :=
  ⟨by decide, by decide⟩

/-- C5 amended: every successful fetch returns exactly one record per
discovered interface index (the aggregation keys are unique), in the
order indices were first discovered across the field walks — not
necessarily ascending index order. -/
theorem fetchOneRecordPerIndex :
    ∀ (results : List (String × Option (List (Nat × TypedVal))))
      (vlan power : List (Nat × String)),
      ((fetchInterfaceData true (bulkFetchInterfaceData results) vlan power).map
        InterfaceRecord.Index = (bulkFetchInterfaceData results).map Prod.fst) ∧
      ((bulkFetchInterfaceData results).map Prod.fst).Nodup := by
  intro results vlan power
  refine ⟨?_, bulkFetchInterfaceDataKeysNodup results⟩
  cases hagg : bulkFetchInterfaceData results with
  | nil => simp [fetchInterfaceData]
  | cons e rest =>
    simp [fetchInterfaceData, List.map_map, mkInterfaceRecord, Function.comp]

/-- C6: the VLAN resolver returns an entry for every requested index, and
maps every requested index with no evidence from the PVID step or the
vendor step (the name step never adds indices) to the sentinel "N/A";
totality of the embedded resolver reflects that it never throws. -/
theorem vlanResolverTotalCoverage :
    ∀ (indices : List Nat) (p c names : List (Nat × String)) (i : Nat),
      i ∈ indices →
      ((getVlanDataBulk indices p c names).lookup i).isSome = true ∧
      (i ∉ p.map Prod.fst → i ∉ c.map Prod.fst →
        (getVlanDataBulk indices p c names).lookup i = some "N/A") := by
  intro indices p c names i hi
  constructor
  · cases h : (vlanStage3 names (vlanStage2 indices p c)).lookup i with
    | none =>
      rw [getVlanDataBulk, fillNALookupNA indices _ i hi h]
      rfl
    | some s =>
      rw [getVlanDataBulk, fillNALookupSome indices _ i s h]
      rfl
  · intro hp hc
    have hnone : (vlanStage3 names (vlanStage2 indices p c)).lookup i = none := by
      apply lookupNoneOfNotMem
      intro hmem
      rw [vlanStage3Keys] at hmem
      rcases vlanStage2Keys indices p c i hmem with h1 | h1
      · exact hp h1
      · exact hc h1
    rw [getVlanDataBulk]
    exact fillNALookupNA indices _ i hi hnone

/-- C6 witness: with requested indices 1 and 2, PVID evidence only for 1
and no vendor evidence, index 2 gets an entry and it is "N/A". -/
theorem vlanResolverTotalCoverageWitness :
    ((getVlanDataBulk [1, 2] [(1, "10")] [] []).lookup 2).isSome = true ∧
    (getVlanDataBulk [1, 2] [(1, "10")] [] []).lookup 2 = some "N/A" := by
  have h := vlanResolverTotalCoverage [1, 2] [(1, "10")] [] [] 2 (by decide)
  exact ⟨h.1, h.2 (by decide) (by decide)⟩

/-- C7: when both the PVID step and the vendor step yield a value for an
index, the resolver's final value for that index is the PVID-derived one
(possibly name-enhanced); the vendor value fills only missing indices. -/
theorem vlanResolverPvidPrecedence :
    ∀ (indices : List Nat) (p c names : List (Nat × String)) (i : Nat)
      (v w : String),
      p.lookup i = some v → c.lookup i = some w →
      (getVlanDataBulk indices p c names).lookup i =
        some (enhanceVlanValue names v) := by
  intro indices p c names i v w hp hc
  have h2 : (vlanStage2 indices p c).lookup i = some v :=
    vlanStage2LookupSome indices p c i v hp
  have h3 : (vlanStage3 names (vlanStage2 indices p c)).lookup i =
      some (enhanceVlanValue names v) := by
    rw [vlanStage3Lookup, h2]
    rfl
  rw [getVlanDataBulk]
  exact fillNALookupSome indices _ i _ h3

/-- C7 witness: PVID value "10" and vendor value "20" for index 1; the
resolved value is the PVID-derived "10". -/
theorem vlanResolverPvidPrecedenceWitness :
    (getVlanDataBulk [1] [(1, "10")] [(1, "20")] []).lookup 1 =
      some (enhanceVlanValue [] "10") :=
  vlanResolverPvidPrecedence [1] [(1, "10")] [(1, "20")] [] 1 "10" "20"
    (by decide) (by decide)

/-- C8: a raw power reading is rendered as "0W" when zero or negative and
otherwise as the reading divided by 1000 with one decimal place followed
by "W"; in particular a winning-prefix reading of 15400 for requested
index 1 produces the entry "15.4W", and reading 0 renders as "0W". -/
theorem powerRendering :
    (∀ r : Int, r ≤ 0 → powerStringOfReading r = "0W") ∧
    (∀ r : Int, 0 < r → powerStringOfReading r = formatWatts r.toNat ++ "W") ∧
    getPowerDataBulk [1] [("1.3.6.1.4.1.9.9.402.1.2.1.7",
      BulkResp.page [("1.3.6.1.4.1.9.9.402.1.2.1.7.1",
        RawVal.mk (some 15400) "" none)])] = [(1, "15.4W")] ∧
    powerStringOfReading 15400 = "15.4W" ∧
    powerStringOfReading 0 = "0W" := by
  refine ⟨?_, ?_, by decide, by decide, rfl⟩
  · intro r h
    rw [powerStringOfReading, if_neg (by omega)]
  · intro r h
    rw [powerStringOfReading, if_pos h]

/-- C8 witness: the two universally quantified renderings applied at the
concrete readings -3 and 15400. -/
theorem powerRenderingWitness :
    powerStringOfReading (-3) = "0W" ∧
    powerStringOfReading 15400 = formatWatts (Int.toNat 15400) ++ "W" :=
  ⟨powerRendering.1 (-3) (by decide), powerRendering.2.1 15400 (by decide)⟩

/-- C9: for the physical-address field, a raw value carrying a 6-byte
octet sequence is rendered as six lowercase two-digit hex octets joined
by colons, and any other raw value is rendered as its direct string
form; bytes 00 1a 2b 3c 4d 5e yield "00:1a:2b:3c:4d:5e". -/
theorem physAddressRendering :
    (∀ (v : RawVal) (bs : List Nat), v.octets = some bs → bs.length = 6 →
        convertSnmpValue "ifPhysAddress" v =
          TypedVal.str (String.intercalate ":" (bs.map toHex2))) ∧
    (∀ (v : RawVal) (bs : List Nat), v.octets = some bs → bs.length ≠ 6 →
        convertSnmpValue "ifPhysAddress" v = TypedVal.str v.asStr) ∧
    (∀ v : RawVal, v.octets = none →
        convertSnmpValue "ifPhysAddress" v = TypedVal.str v.asStr) ∧
    convertSnmpValue "ifPhysAddress"
        (RawVal.mk none "" (some [0x00, 0x1a, 0x2b, 0x3c, 0x4d, 0x5e])) =
      TypedVal.str "00:1a:2b:3c:4d:5e" := by
  refine ⟨?_, ?_, ?_, by decide⟩
  · intro v bs hb h6
    have hred : convertSnmpValue "ifPhysAddress" v =
        (match v.octets with
         | some bs2 =>
             if bs2.length = 6 then
               TypedVal.str (String.intercalate ":" (bs2.map toHex2))
             else TypedVal.str v.asStr
         | none => TypedVal.str v.asStr) := rfl
    rw [hred, hb]
    dsimp only
    rw [if_pos h6]
  · intro v bs hb h6
    have hred : convertSnmpValue "ifPhysAddress" v =
        (match v.octets with
         | some bs2 =>
             if bs2.length = 6 then
               TypedVal.str (String.intercalate ":" (bs2.map toHex2))
             else TypedVal.str v.asStr
         | none => TypedVal.str v.asStr) := rfl
    rw [hred, hb]
    dsimp only
    rw [if_neg h6]
  · intro v hb
    have hred : convertSnmpValue "ifPhysAddress" v =
        (match v.octets with
         | some bs2 =>
             if bs2.length = 6 then
               TypedVal.str (String.intercalate ":" (bs2.map toHex2))
             else TypedVal.str v.asStr
         | none => TypedVal.str v.asStr) := rfl
    rw [hred, hb]

/-- C9 witness: the 6-byte rendering applied at a concrete octet
sequence. -/
theorem physAddressRenderingWitness :
    convertSnmpValue "ifPhysAddress" (RawVal.mk none "" (some [1, 2, 3, 4, 5, 6])) =
      TypedVal.str (String.intercalate ":" ([1, 2, 3, 4, 5, 6].map toHex2)) :=
  physAddressRendering.1 (RawVal.mk none "" (some [1, 2, 3, 4, 5, 6]))
    [1, 2, 3, 4, 5, 6] rfl rfl

/-- C10: on every execution path — clean scalar count read, fallback walk
of the description table, or exception — the interface-count estimate is
at most 64, so every subsequent core field walk is bounded by a maxRows
of at most 64. -/
theorem interfaceCountBounded :
    ∀ (s : ScalarResp) (fb : Option (List NextResp)),
      getInterfaceCount s fb ≤ 64 := by
  intro s fb
  cases s with
  | exn => exact (by decide : (20 : Int) ≤ 64)
  | ok v =>
    cases hv : v.asInt with
    | some cnt =>
      simp only [getInterfaceCount, hv]
      exact min_le_right _ _
    | none =>
      simp only [getInterfaceCount, hv]
      decide
  | errStat =>
    cases fb with
    | none => exact (by decide : (20 : Int) ≤ 64)
    | some rs =>
      cases hc : countLoop 32 rs 0 with
      | none =>
        simp only [getInterfaceCount, estimateInterfaceCount, hc]
        decide
      | some cnt =>
        have hle := countLoopLe 32 rs 0 cnt hc
        simp only [getInterfaceCount, estimateInterfaceCount, hc]
        have hm : max cnt 10 ≤ 32 := by omega
        omega
